import Mathlib

/-!
Verification development for the keyboard-acoustics capture tool
(src/main.py, class ResearchApp).

Samples are modelled as rationals (the program stores 32-bit floats; the
claims under study are about exact shapes and peak scaling, which the
rational model captures), buffers and files as lists, and the stateful
session as an explicit step function over a session-state record.
-/

set_option maxRecDepth 4000

namespace KeySound

/-! ## Configuration constants (ResearchApp.__init__, lines 41-45) -/

/-- Sample rate: self.fs = 44100. -/
def sampleRate : Nat := 44100

/-- Buffer capacity in samples: int(44100 * 2.0) = 88200. -/
def buffer_samples : Nat := 88200

/-- Segment length in samples: int(44100 * 0.2) = 8820. -/
def segment_samples : Nat := 8820

/-! ## Rolling buffer (record_audio callback, lines 166-172)

The callback does
  self.audio_buffer = np.roll(self.audio_buffer, -frames)
  self.audio_buffer[-frames:] = indata[:, 0]
np.roll with a negative shift rotates the array cyclically to the left;
the slice assignment then overwrites the trailing frames entries.  The
slice assignment is only well formed for 1 <= frames <= len(buffer)
(otherwise NumPy raises a broadcast error), which always holds for
hardware audio blocks; theorems carry that bound as a hypothesis. -/

/-- np.roll(buf, -f): cyclic left rotation by f positions. -/
def npRollLeft (buf : List ℚ) (f : Nat) : List ℚ :=
  buf.drop (f % buf.length) ++ buf.take (f % buf.length)

/-- buf[-n:] = block slice assignment (n = length of block):
overwrite the trailing block-length entries. -/
def setLastSlice (buf block : List ℚ) : List ℚ :=
  buf.take (buf.length - block.length) ++ block

/-- One invocation of the audio callback while recording:
roll the buffer left by the block length, then overwrite the tail. -/
def callbackStep (buf block : List ℚ) : List ℚ :=
  setLastSlice (npRollLeft buf block.length) block

/-- segment = self.audio_buffer[-n:] (Python negative slicing; for n = 0
the slice a[-0:] is the whole list). -/
def sliceLast (l : List ℚ) (n : Nat) : List ℚ :=
  if n = 0 then l else l.drop (l.length - n)

theorem callbackStep_eq_drop (buf block : List ℚ) (h : block.length ≤ buf.length) :
    callbackStep buf block = buf.drop block.length ++ block := by
  unfold callbackStep npRollLeft setLastSlice
  rcases Nat.lt_or_ge block.length buf.length with hlt | hge
  · rw [Nat.mod_eq_of_lt hlt]
    have hlen : (buf.drop block.length ++ buf.take block.length).length = buf.length := by
      simp [Nat.sub_add_cancel (Nat.le_of_lt hlt), Nat.min_eq_left (Nat.le_of_lt hlt)]
    rw [hlen]
    have htl : (buf.drop block.length).length = buf.length - block.length := by simp
    rw [List.take_append_of_le_length (by omega), List.take_of_length_le (by omega)]
  · have heq : block.length = buf.length := le_antisymm h hge
    rcases Nat.eq_zero_or_pos buf.length with h0 | hpos
    · have hb : buf = [] := List.length_eq_zero.mp h0
      have hbl : block = [] := List.length_eq_zero.mp (by omega)
      subst hb hbl; rfl
    · rw [heq, Nat.mod_self]
      simp

theorem callbackStep_length (buf block : List ℚ) (h : block.length ≤ buf.length) :
    (callbackStep buf block).length = buf.length := by
  rw [callbackStep_eq_drop buf block h]
  simp
  omega

/-- Master shape lemma: a sequence of callback invocations on a buffer of
fixed length keeps exactly the trailing window of (initial contents ++ all
appended samples). -/
theorem foldl_callbackStep (blocks : List (List ℚ)) :
    ∀ init : List ℚ, (∀ b ∈ blocks, b.length ≤ init.length) →
      List.foldl callbackStep init blocks
        = (init ++ blocks.flatten).drop blocks.flatten.length := by
  induction blocks with
  | nil => intro init _; simp
  | cons b bs ih =>
      intro init h
      have hb : b.length ≤ init.length := h b (by simp)
      have hlen : (callbackStep init b).length = init.length :=
        callbackStep_length init b hb
      have hbs : ∀ x ∈ bs, x.length ≤ (callbackStep init b).length := by
        intro x hx; rw [hlen]; exact h x (by simp [hx])
      rw [List.foldl_cons, ih _ hbs, callbackStep_eq_drop init b hb, List.flatten_cons]
      rw [List.append_assoc, ← List.drop_append_of_le_length hb, List.drop_drop]
      congr 1
      rw [List.length_append]

/-- Every block is no longer than the total of all blocks. -/
theorem length_le_join_length {b : List ℚ} {blocks : List (List ℚ)}
    (hb : b ∈ blocks) : b.length ≤ blocks.flatten.length := by
  induction blocks with
  | nil => cases hb
  | cons c cs ih =>
      rcases List.mem_cons.mp hb with rfl | h
      · simp
      · have := ih h
        simp only [List.flatten_cons, List.length_append]
        omega

/-- C1: with total appended length at most the capacity, the trailing
window of capacity samples is the appended samples in order, zero padded
in front. -/
theorem c1_snapshot_underfill (C : Nat) (blocks : List (List ℚ))
    (hpos : ∀ b ∈ blocks, 0 < b.length)
    (hle : blocks.flatten.length ≤ C) :
    sliceLast (List.foldl callbackStep (List.replicate C (0:ℚ)) blocks) C
      = List.replicate (C - blocks.flatten.length) (0:ℚ) ++ blocks.flatten := by
  have hball : ∀ b ∈ blocks, b.length ≤ (List.replicate C (0:ℚ)).length := by
    intro b hb
    simp only [List.length_replicate]
    exact (length_le_join_length hb).trans hle
  have hfold := foldl_callbackStep blocks (List.replicate C (0:ℚ)) hball
  have hdrop : (List.replicate C (0:ℚ) ++ blocks.flatten).drop blocks.flatten.length
      = List.replicate (C - blocks.flatten.length) (0:ℚ) ++ blocks.flatten := by
    rw [List.drop_append_of_le_length (by simpa using hle), List.drop_replicate]
  have hlenf : (List.foldl callbackStep (List.replicate C (0:ℚ)) blocks).length = C := by
    rw [hfold, List.length_drop, List.length_append, List.length_replicate]
    omega
  unfold sliceLast
  rcases Nat.eq_zero_or_pos C with rfl | hC
  · rw [if_pos rfl, hfold, hdrop]
  · rw [if_neg (by omega), hlenf, Nat.sub_self, List.drop_zero, hfold, hdrop]

/-- C2: once the total appended length exceeds the capacity, the window is
exactly the last capacity samples appended (oldest evicted first), and the
final buffer depends only on the concatenation of the blocks, not on the
partitioning into individual callback invocations. -/
theorem c2_snapshot_overflow (C : Nat) (blocks : List (List ℚ))
    (hb : ∀ b ∈ blocks, 0 < b.length ∧ b.length ≤ C)
    (hgt : C < blocks.flatten.length) :
    sliceLast (List.foldl callbackStep (List.replicate C (0:ℚ)) blocks) C
      = blocks.flatten.drop (blocks.flatten.length - C)
    ∧ ∀ blocks₂ : List (List ℚ), (∀ b ∈ blocks₂, 0 < b.length ∧ b.length ≤ C) →
        blocks₂.flatten = blocks.flatten →
        List.foldl callbackStep (List.replicate C (0:ℚ)) blocks₂
          = List.foldl callbackStep (List.replicate C (0:ℚ)) blocks := by
  have hball : ∀ b ∈ blocks, b.length ≤ (List.replicate C (0:ℚ)).length := by
    intro b hbm
    simpa using (hb b hbm).2
  have hfold := foldl_callbackStep blocks (List.replicate C (0:ℚ)) hball
  have hdrop : (List.replicate C (0:ℚ) ++ blocks.flatten).drop blocks.flatten.length
      = blocks.flatten.drop (blocks.flatten.length - C) := by
    rw [List.drop_append_eq_append_drop,
        List.drop_eq_nil_of_le (by rw [List.length_replicate]; omega),
        List.nil_append, List.length_replicate]
  constructor
  · have hlenf : (List.foldl callbackStep (List.replicate C (0:ℚ)) blocks).length = C := by
      rw [hfold, hdrop, List.length_drop]
      omega
    unfold sliceLast
    rcases Nat.eq_zero_or_pos C with rfl | hC
    · rw [if_pos rfl, hfold, hdrop]
    · rw [if_neg (by omega), hlenf, Nat.sub_self, List.drop_zero, hfold, hdrop]
  · intro blocks₂ hb₂ hjoin
    have hball₂ : ∀ b ∈ blocks₂, b.length ≤ (List.replicate C (0:ℚ)).length := by
      intro b hbm
      simpa using (hb₂ b hbm).2
    rw [foldl_callbackStep blocks₂ _ hball₂, hfold, hjoin]

/-- C1 witness: capacity 4, blocks [1,2] then [3]. -/
theorem c1_snapshot_underfill_w :
    (∀ b ∈ [[(1:ℚ), 2], [3]], 0 < b.length)
    ∧ ([[(1:ℚ), 2], [3]] : List (List ℚ)).flatten.length ≤ 4
    ∧ sliceLast (List.foldl callbackStep (List.replicate 4 (0:ℚ)) [[(1:ℚ), 2], [3]]) 4
        = List.replicate (4 - ([[(1:ℚ), 2], [3]] : List (List ℚ)).flatten.length) (0:ℚ)
            ++ ([[(1:ℚ), 2], [3]] : List (List ℚ)).flatten :=
  ⟨by decide, by decide, c1_snapshot_underfill 4 _ (by decide) (by decide)⟩

/-- C2 witness: capacity 2, blocks [1] then [2,3]; the window is [2,3]. -/
theorem c2_snapshot_overflow_w :
    (∀ b ∈ [[(1:ℚ)], [2, 3]], 0 < b.length ∧ b.length ≤ 2)
    ∧ 2 < ([[(1:ℚ)], [2, 3]] : List (List ℚ)).flatten.length
    ∧ sliceLast (List.foldl callbackStep (List.replicate 2 (0:ℚ)) [[(1:ℚ)], [2, 3]]) 2
        = ([[(1:ℚ)], [2, 3]] : List (List ℚ)).flatten.drop
            (([[(1:ℚ)], [2, 3]] : List (List ℚ)).flatten.length - 2) :=
  ⟨by decide, by decide, (c2_snapshot_overflow 2 _ (by decide) (by decide)).1⟩

/-! ## C3: cost of one callback invocation

np.roll materializes a fresh array of the full buffer length (one element
copy per buffer position), and the slice assignment then writes the block.
The per-call element-copy count of the callback body is therefore the
buffer length plus the block length. -/

/-- Element copies performed by one callback invocation: np.roll copies
all bufLen elements into a fresh array, and the slice assignment writes
blockLen elements. -/
def callbackStepCost (bufLen blockLen : Nat) : Nat := bufLen + blockLen

/-- C3 counterexample: the per-append cost is not bounded by any multiple
of the block length alone, because it grows with the buffer capacity. -/
theorem c3_cost_cex :
    ¬ ∃ k : Nat, ∀ bufLen blockLen : Nat, 0 < blockLen →
        callbackStepCost bufLen blockLen ≤ k * blockLen := by
  rintro ⟨k, hk⟩
  have h := hk (k + 1) 1 (by omega)
  simp [callbackStepCost] at h
  omega

/-- C3 amended: the callback is a full-buffer shift; its element-copy cost
is at least the full capacity on every call, so no bound linear in the
block length alone covers all capacities. -/
theorem c3_full_shift_cost :
    (∀ bufLen blockLen : Nat, bufLen ≤ callbackStepCost bufLen blockLen)
    ∧ (∀ k : Nat, k * 1 < callbackStepCost (k + 1) 1) := by
  constructor
  · intro bufLen blockLen
    simp [callbackStepCost]
  · intro k
    simp [callbackStepCost]
    omega

/-! ## 16-bit encoding (save_key_audio, lines 218-222)

The code computes
  if np.max(np.abs(segment)) > 0:
      segment_int16 = np.int16(segment / np.max(np.abs(segment)) * 32767)
  else:
      segment_int16 = np.int16(segment)
np.int16 truncates the float value toward zero and then reduces modulo
2^16 into the signed 16-bit range. -/

/-- C-style truncation toward zero (the value conversion of np.int16
before any wraparound). -/
def truncQ (x : ℚ) : ℤ :=
  if x.num < 0 then -(((x.num.natAbs / x.den : Nat) : ℤ))
  else ((x.num.natAbs / x.den : Nat) : ℤ)

/-- Wraparound of an integer into the signed 16-bit range. -/
def int16Wrap (n : ℤ) : ℤ := (n + 32768) % 65536 - 32768

/-- np.int16 applied to one sample value. -/
def npInt16 (x : ℚ) : ℤ := int16Wrap (truncQ x)

/-- np.max(np.abs(segment)). -/
def npAbsMax (s : List ℚ) : ℚ := (s.map (fun x => |x|)).foldr max 0

/-- The 16-bit conversion of save_key_audio: peak-scale when the maximum
absolute value is positive, otherwise convert the raw samples. -/
def encodeSegment (s : List ℚ) : List ℤ :=
  if 0 < npAbsMax s then s.map (fun x => npInt16 (x / npAbsMax s * 32767))
  else s.map (fun x => npInt16 x)

/-- Largest absolute sample of an encoded clip. -/
def maxAbsInt (l : List ℤ) : ℤ := (l.map (fun y => |y|)).foldr max 0

theorem init_le_foldr_max {α : Type} [LinearOrder α] (z : α) (l : List α) :
    z ≤ l.foldr max z := by
  induction l with
  | nil => exact le_refl z
  | cons b bs ih => exact ih.trans (le_max_right b _)

theorem le_foldr_max {α : Type} [LinearOrder α] {z a : α} {l : List α} (h : a ∈ l) :
    a ≤ l.foldr max z := by
  induction l with
  | nil => cases h
  | cons b bs ih =>
      rcases List.mem_cons.mp h with rfl | h'
      · exact le_max_left _ _
      · exact (ih h').trans (le_max_right _ _)

theorem foldr_max_le {α : Type} [LinearOrder α] {z B : α} {l : List α}
    (hz : z ≤ B) (h : ∀ a ∈ l, a ≤ B) : l.foldr max z ≤ B := by
  induction l with
  | nil => exact hz
  | cons b bs ih =>
      exact max_le (h b (List.mem_cons_self b bs))
        (ih (fun a ha => h a (List.mem_cons_of_mem b ha)))

theorem npAbsMax_nonneg (s : List ℚ) : 0 ≤ npAbsMax s :=
  init_le_foldr_max 0 _

theorem abs_le_npAbsMax {s : List ℚ} {x : ℚ} (h : x ∈ s) : |x| ≤ npAbsMax s :=
  le_foldr_max (List.mem_map_of_mem _ h)

theorem npAbsMax_eq_zero_iff (s : List ℚ) : npAbsMax s = 0 ↔ ∀ x ∈ s, x = 0 := by
  constructor
  · intro h x hx
    have := abs_le_npAbsMax hx
    rw [h] at this
    exact abs_eq_zero.mp (le_antisymm this (abs_nonneg x))
  · intro h
    refine le_antisymm ?_ (npAbsMax_nonneg s)
    apply foldr_max_le (le_refl 0)
    intro a ha
    obtain ⟨x, hx, rfl⟩ := List.mem_map.mp ha
    rw [h x hx]
    simp

theorem exists_abs_eq_npAbsMax {s : List ℚ} (h : 0 < npAbsMax s) :
    ∃ x ∈ s, |x| = npAbsMax s := by
  induction s with
  | nil => simp [npAbsMax] at h
  | cons a l ih =>
      have hmax : npAbsMax (a :: l) = max |a| (npAbsMax l) := rfl
      rcases le_total (npAbsMax l) |a| with hle | hle
      · exact ⟨a, List.mem_cons_self _ _, by rw [hmax, max_eq_left hle]⟩
      · have h' : 0 < npAbsMax l := by rw [hmax, max_eq_right hle] at h; exact h
        obtain ⟨x, hx, he⟩ := ih h'
        exact ⟨x, List.mem_cons_of_mem _ hx, by rw [hmax, max_eq_right hle, he]⟩

theorem truncQ_natAbs (x : ℚ) : (truncQ x).natAbs = x.num.natAbs / x.den := by
  unfold truncQ
  split
  · rw [Int.natAbs_neg, Int.natAbs_ofNat]
  · rw [Int.natAbs_ofNat]

theorem truncQ_abs_le {x : ℚ} {B : ℕ} (h : |x| ≤ (B : ℚ)) :
    (truncQ x).natAbs ≤ B := by
  have hden : 0 < (x.den : ℚ) := by
    exact_mod_cast x.den_pos
  have habs : |x| = (x.num.natAbs : ℚ) / (x.den : ℚ) := by
    rw [Int.cast_natAbs, Int.cast_abs]
    conv_lhs => rw [← Rat.num_div_den x]
    rw [abs_div, abs_of_pos hden]
  rw [habs, div_le_iff hden] at h
  have hnat : x.num.natAbs ≤ x.den * B := by
    have h2 : (x.num.natAbs : ℚ) ≤ (x.den : ℚ) * (B : ℚ) := by linarith
    exact_mod_cast h2
  rw [truncQ_natAbs]
  exact Nat.div_le_of_le_mul hnat

theorem truncQ_intCast (n : ℤ) : truncQ ((n : ℚ)) = n := by
  unfold truncQ
  rw [Rat.num_intCast, Rat.den_intCast]
  split
  · rw [Nat.div_one]
    omega
  · rw [Nat.div_one]
    omega

theorem int16Wrap_eq_self {n : ℤ} (h1 : -32768 ≤ n) (h2 : n ≤ 32767) :
    int16Wrap n = n := by
  unfold int16Wrap
  rw [Int.emod_eq_of_lt (by omega) (by omega)]
  omega

theorem npInt16_eq_truncQ_of_abs_le {x : ℚ} (h : |x| ≤ ((32767:ℕ) : ℚ)) :
    npInt16 x = truncQ x := by
  have hb := truncQ_abs_le h
  unfold npInt16
  exact int16Wrap_eq_self (by omega) (by omega)

theorem npInt16_zero : npInt16 (0:ℚ) = 0 := by
  have h : ((0:ℤ) : ℚ) = (0:ℚ) := by norm_num
  unfold npInt16
  rw [← h, truncQ_intCast]
  exact int16Wrap_eq_self (by omega) (by omega)

theorem encodeSegment_of_all_zero {s : List ℚ} (h : ∀ x ∈ s, x = 0) :
    encodeSegment s = s.map (fun _ => (0:ℤ)) := by
  have hmax : npAbsMax s = 0 := (npAbsMax_eq_zero_iff s).mpr h
  unfold encodeSegment
  rw [hmax, if_neg (by norm_num)]
  apply List.map_congr_left
  intro x hx
  rw [h x hx]
  exact npInt16_zero

theorem scaled_abs_le {s : List ℚ} (hp : 0 < npAbsMax s) {x : ℚ} (hx : x ∈ s) :
    |x / npAbsMax s * 32767| ≤ ((32767:ℕ) : ℚ) := by
  have h1 : |x| ≤ npAbsMax s := abs_le_npAbsMax hx
  have h2 : |x / npAbsMax s| ≤ 1 := by
    rw [abs_div, abs_of_pos hp]
    exact div_le_one_of_le h1 (le_of_lt hp)
  have h3 : |x / npAbsMax s * 32767| = |x / npAbsMax s| * 32767 := by
    rw [abs_mul]
    norm_num
  rw [h3]
  have h4 : |x / npAbsMax s| * 32767 ≤ 1 * 32767 :=
    mul_le_mul_of_nonneg_right h2 (by norm_num)
  calc |x / npAbsMax s| * 32767 ≤ 1 * 32767 := h4
    _ = ((32767:ℕ) : ℚ) := by norm_num

theorem encode_peak_elt {p x : ℚ} (hp : 0 < p) (hx : |x| = p) :
    |truncQ (x / p * 32767)| = 32767 := by
  have hpne : p ≠ 0 := ne_of_gt hp
  rcases (abs_eq (le_of_lt hp)).mp hx with h | h
  · rw [h, div_self hpne, one_mul]
    have hc : (32767:ℚ) = ((32767:ℤ) : ℚ) := by norm_num
    rw [hc, truncQ_intCast]
    decide
  · rw [h, neg_div, div_self hpne, neg_mul, one_mul]
    have hc : -(32767:ℚ) = ((-32767:ℤ) : ℚ) := by norm_num
    rw [hc, truncQ_intCast]
    decide

/-- C4: peak normalization before 16-bit encoding: an all-zero segment
encodes to all zeros, and a segment with nonzero peak encodes with maximum
absolute sample exactly 32767. -/
theorem c4_peak_normalization (s : List ℚ) :
    ((∀ x ∈ s, x = 0) → encodeSegment s = s.map (fun _ => (0:ℤ)))
    ∧ (0 < npAbsMax s → maxAbsInt (encodeSegment s) = 32767) := by
  constructor
  · exact encodeSegment_of_all_zero
  · intro hp
    have henc : encodeSegment s
        = s.map (fun x => npInt16 (x / npAbsMax s * 32767)) := by
      unfold encodeSegment
      rw [if_pos hp]
    obtain ⟨x0, hx0, he0⟩ := exists_abs_eq_npAbsMax hp
    apply le_antisymm
    · unfold maxAbsInt
      apply foldr_max_le (by norm_num)
      intro a ha
      rw [henc] at ha
      obtain ⟨y, hy, rfl⟩ := List.mem_map.mp ha
      obtain ⟨x, hx, rfl⟩ := List.mem_map.mp hy
      have hb := scaled_abs_le hp hx
      rw [npInt16_eq_truncQ_of_abs_le hb]
      have hle := truncQ_abs_le hb
      rw [Int.abs_eq_natAbs]
      omega
    · have hmem : npInt16 (x0 / npAbsMax s * 32767) ∈ encodeSegment s := by
        rw [henc]
        exact List.mem_map_of_mem _ hx0
      have habs : |npInt16 (x0 / npAbsMax s * 32767)| = 32767 := by
        rw [npInt16_eq_truncQ_of_abs_le (scaled_abs_le hp hx0)]
        exact encode_peak_elt hp he0
      calc (32767:ℤ) = |npInt16 (x0 / npAbsMax s * 32767)| := habs.symm
        _ ≤ maxAbsInt (encodeSegment s) := le_foldr_max (List.mem_map_of_mem _ hmem)

theorem npAbsMax_one : npAbsMax [(1:ℚ)] = 1 := by
  unfold npAbsMax
  rw [List.map_cons, List.map_nil, List.foldr_cons, List.foldr_nil, abs_one]
  exact max_eq_left zero_le_one

theorem npAbsMax_neg_one : npAbsMax [-(1:ℚ)] = 1 := by
  unfold npAbsMax
  rw [List.map_cons, List.map_nil, List.foldr_cons, List.foldr_nil, abs_neg, abs_one]
  exact max_eq_left zero_le_one

/-- C4 witness: segment with the single sample 1. -/
theorem c4_peak_normalization_w :
    (0:ℚ) < npAbsMax [(1:ℚ)]
    ∧ maxAbsInt (encodeSegment [(1:ℚ)]) = 32767 :=
  ⟨by rw [npAbsMax_one]; norm_num,
   (c4_peak_normalization [(1:ℚ)]).2 (by rw [npAbsMax_one]; norm_num)⟩

/-- C10: the 16-bit conversion only produces values in the range -32767 to
32767 and never wraps: with positive peak every sample is the plain
truncation of the peak-scaled value, and with zero peak the conversion
yields all zeros. -/
theorem c10_int16_range (s : List ℚ) :
    (∀ y ∈ encodeSegment s, -32767 ≤ y ∧ y ≤ 32767)
    ∧ (0 < npAbsMax s →
        encodeSegment s = s.map (fun x => truncQ (x / npAbsMax s * 32767)))
    ∧ (npAbsMax s = 0 → encodeSegment s = s.map (fun _ => (0:ℤ))) := by
  have hsplit : 0 < npAbsMax s ∨ npAbsMax s = 0 := by
    rcases lt_or_eq_of_le (npAbsMax_nonneg s) with h | h
    · exact Or.inl h
    · exact Or.inr h.symm
  have henc : 0 < npAbsMax s → encodeSegment s
      = s.map (fun x => npInt16 (x / npAbsMax s * 32767)) := by
    intro hp
    unfold encodeSegment
    rw [if_pos hp]
  refine ⟨?_, ?_, ?_⟩
  · intro y hy
    rcases hsplit with hp | h0
    · rw [henc hp] at hy
      obtain ⟨x, hx, rfl⟩ := List.mem_map.mp hy
      have hb := scaled_abs_le hp hx
      rw [npInt16_eq_truncQ_of_abs_le hb]
      have hle := truncQ_abs_le hb
      omega
    · rw [encodeSegment_of_all_zero ((npAbsMax_eq_zero_iff s).mp h0)] at hy
      obtain ⟨x, hx, rfl⟩ := List.mem_map.mp hy
      omega
  · intro hp
    rw [henc hp]
    apply List.map_congr_left
    intro x hx
    exact npInt16_eq_truncQ_of_abs_le (scaled_abs_le hp hx)
  · intro h0
    exact encodeSegment_of_all_zero ((npAbsMax_eq_zero_iff s).mp h0)

/-- C10 witness: segment with the single sample -1. -/
theorem c10_int16_range_w :
    (0:ℚ) < npAbsMax [-(1:ℚ)]
    ∧ encodeSegment [-(1:ℚ)]
        = [-(1:ℚ)].map (fun x => truncQ (x / npAbsMax [-(1:ℚ)] * 32767)) :=
  ⟨by rw [npAbsMax_neg_one]; norm_num,
   (c10_int16_range [-(1:ℚ)]).2.1 (by rw [npAbsMax_neg_one]; norm_num)⟩

/-! ## Keyboard filtering (listen_keyboard / on_press, lines 189-198)

on_press computes
  k = key.char if hasattr(key, 'char') and key.char else str(key)
and accepts k when k.isprintable() and len(k) == 1, or k is one of
'Key.space', 'Key.enter', 'Key.backspace'.  Python's per-character
printability test is an external library predicate; it is threaded through
as a parameter (printable : Char -> Bool). -/

/-- A raw key event as seen by the pynput handler: the optional char
attribute and the str(key) rendering. -/
structure RawKey where
  char : Option String
  name : String
  deriving DecidableEq

/-- The label k computed by on_press (char when present and nonempty,
otherwise str(key)). -/
def decodeKey (k : RawKey) : String :=
  match k.char with
  | some c => if c = "" then k.name else c
  | none => k.name

/-- The three accepted control-key renderings. -/
def controlNames : List String := ["Key.space", "Key.enter", "Key.backspace"]

/-- The acceptance test of on_press:
(k.isprintable() and len(k) == 1) or k in controlNames. -/
def acceptedLabel (printable : Char → Bool) (s : String) : Bool :=
  (s.toList.all printable && s.length == 1) || controlNames.contains s

/-- The save attempts made by one on_press invocation (at most one, and
none when not recording). -/
def onPressSaves (printable : Char → Bool) (isRecording : Bool) (key : RawKey) :
    List String :=
  if !isRecording then []
  else if acceptedLabel printable (decodeKey key) then [decodeKey key] else []

theorem acceptedLabel_iff (printable : Char → Bool) (s : String) :
    acceptedLabel printable s = true
      ↔ ((∀ c ∈ s.toList, printable c = true) ∧ s.length = 1)
        ∨ s = "Key.space" ∨ s = "Key.enter" ∨ s = "Key.backspace" := by
  unfold acceptedLabel controlNames
  simp [List.all_eq_true]

/-- C5: during recording a key press produces exactly one save attempt if
and only if its decoded label is a single printable character or one of
the three named controls; otherwise it produces none, and outside
recording it always produces none. -/
theorem c5_key_filter (printable : Char → Bool) (key : RawKey) :
    ((onPressSaves printable true key).length = 1
      ↔ ((∀ c ∈ (decodeKey key).toList, printable c = true)
            ∧ (decodeKey key).length = 1)
          ∨ decodeKey key = "Key.space" ∨ decodeKey key = "Key.enter"
          ∨ decodeKey key = "Key.backspace")
    ∧ (((∀ c ∈ (decodeKey key).toList, printable c = true)
            ∧ (decodeKey key).length = 1)
          ∨ decodeKey key = "Key.space" ∨ decodeKey key = "Key.enter"
          ∨ decodeKey key = "Key.backspace"
        → onPressSaves printable true key = [decodeKey key])
    ∧ (¬ (((∀ c ∈ (decodeKey key).toList, printable c = true)
            ∧ (decodeKey key).length = 1)
          ∨ decodeKey key = "Key.space" ∨ decodeKey key = "Key.enter"
          ∨ decodeKey key = "Key.backspace")
        → onPressSaves printable true key = [])
    ∧ onPressSaves printable false key = [] := by
  by_cases hacc : acceptedLabel printable (decodeKey key) = true
  · have hiff := (acceptedLabel_iff printable (decodeKey key)).mp hacc
    have hsave : onPressSaves printable true key = [decodeKey key] := by
      simp [onPressSaves, hacc]
    refine ⟨?_, fun _ => hsave, fun hn => absurd hiff hn, rfl⟩
    rw [hsave]
    exact iff_of_true (by simp) hiff
  · have hiff : ¬ (((∀ c ∈ (decodeKey key).toList, printable c = true)
        ∧ (decodeKey key).length = 1)
        ∨ decodeKey key = "Key.space" ∨ decodeKey key = "Key.enter"
        ∨ decodeKey key = "Key.backspace") := by
      intro h
      exact hacc ((acceptedLabel_iff printable (decodeKey key)).mpr h)
    refine ⟨?_, fun h => absurd h hiff, fun _ => ?_, rfl⟩
    · have hsave : onPressSaves printable true key = [] := by
        simp [onPressSaves, hacc]
      rw [hsave]
      exact iff_of_false (by simp) hiff
    · simp [onPressSaves, hacc]

/-- ASCII printability, the concrete instance of the printability
predicate used by the witnesses. -/
def asciiPrintable (c : Char) : Bool := 32 ≤ c.toNat && c.toNat ≤ 126

/-- C5 witness: the character key a yields exactly the save attempt [a]. -/
theorem c5_key_filter_w :
    onPressSaves asciiPrintable true { char := some "a", name := "a" } = ["a"] :=
  (c5_key_filter asciiPrintable { char := some "a", name := "a" }).2.1 (by decide)

/-! ## Timestamps (save_key_audio, line 212)

timestamp = datetime.now().strftime("%Y%m%d_%H%M%S_%f"): four year digits,
two digits for month, day, hour, minute and second, six microsecond
digits, zero padded (Python datetime fields always fit these widths). -/

/-- The wall-clock reading taken by datetime.now(). -/
structure PyDateTime where
  year : Nat
  month : Nat
  day : Nat
  hour : Nat
  minute : Nat
  second : Nat
  micro : Nat
  deriving DecidableEq

/-- The character list of strftime("%Y%m%d_%H%M%S_%f"). -/
def strftimeChars (t : PyDateTime) : List Char :=
  [Nat.digitChar (t.year / 1000 % 10), Nat.digitChar (t.year / 100 % 10),
   Nat.digitChar (t.year / 10 % 10), Nat.digitChar (t.year % 10),
   Nat.digitChar (t.month / 10 % 10), Nat.digitChar (t.month % 10),
   Nat.digitChar (t.day / 10 % 10), Nat.digitChar (t.day % 10), '_',
   Nat.digitChar (t.hour / 10 % 10), Nat.digitChar (t.hour % 10),
   Nat.digitChar (t.minute / 10 % 10), Nat.digitChar (t.minute % 10),
   Nat.digitChar (t.second / 10 % 10), Nat.digitChar (t.second % 10), '_',
   Nat.digitChar (t.micro / 100000 % 10), Nat.digitChar (t.micro / 10000 % 10),
   Nat.digitChar (t.micro / 1000 % 10), Nat.digitChar (t.micro / 100 % 10),
   Nat.digitChar (t.micro / 10 % 10), Nat.digitChar (t.micro % 10)]

/-- The timestamp string of save_key_audio. -/
def strftimeTimestamp (t : PyDateTime) : String := String.mk (strftimeChars t)

/-- Numeric value of a decimal digit character. -/
def charDigit (c : Char) : Nat := c.toNat - 48

/-- Read the microsecond field back out of a timestamp string (its last
six characters). -/
def tsMicro (s : String) : Nat :=
  match s.toList.drop 16 with
  | [a, b, c, d, e, f] =>
      ((((charDigit a * 10 + charDigit b) * 10 + charDigit c) * 10
          + charDigit d) * 10 + charDigit e) * 10 + charDigit f
  | _ => 0

theorem charDigit_digitChar {d : Nat} (h : d < 10) :
    charDigit (Nat.digitChar d) = d := by
  interval_cases d <;> rfl

/-- The timestamp keeps full microsecond resolution: the microsecond field
can be read back from the string. -/
theorem tsMicro_strftime (t : PyDateTime) (h : t.micro < 1000000) :
    tsMicro (strftimeTimestamp t) = t.micro := by
  have hr : tsMicro (strftimeTimestamp t)
      = ((((charDigit (Nat.digitChar (t.micro / 100000 % 10)) * 10
          + charDigit (Nat.digitChar (t.micro / 10000 % 10))) * 10
          + charDigit (Nat.digitChar (t.micro / 1000 % 10))) * 10
          + charDigit (Nat.digitChar (t.micro / 100 % 10))) * 10
          + charDigit (Nat.digitChar (t.micro / 10 % 10))) * 10
          + charDigit (Nat.digitChar (t.micro % 10)) := rfl
  rw [hr,
    charDigit_digitChar (Nat.mod_lt _ (by omega)),
    charDigit_digitChar (Nat.mod_lt _ (by omega)),
    charDigit_digitChar (Nat.mod_lt _ (by omega)),
    charDigit_digitChar (Nat.mod_lt _ (by omega)),
    charDigit_digitChar (Nat.mod_lt _ (by omega)),
    charDigit_digitChar (Nat.mod_lt _ (by omega))]
  omega

/-! ## Session state (start_recording / record_audio / listen_keyboard /
save_key_audio)

The mutable state of one recording session: the rolling buffer, the set of
written clip files (name and 16-bit contents, latest write wins), the
appended metadata rows, and the sequence of status texts posted to the
status label.  Events are audio callbacks and key presses; a key-press
event carries the wall-clock reading of its datetime.now() call and the
outcome of the file-system operations inside the try block of
save_key_audio (success, failure opening the wav file, failure while
writing frames after w samples, or failure appending metadata). -/

/-- One row of metadata.csv. -/
structure MetaRow where
  timestamp : String
  key : String
  wavFile : String
  deriving DecidableEq

/-- Outcome of the file-system operations of one save_key_audio call. -/
inductive SaveOutcome where
  | ok
  | failOpen
  | failWrite (written : Nat)
  | failMeta
  deriving DecidableEq

/-- An event delivered to the session. -/
inductive SessionEvent where
  | audio (block : List ℚ)
  | keyPress (key : RawKey) (t : PyDateTime) (outcome : SaveOutcome)

/-- The session's mutable state. -/
structure SessionState where
  buffer : List ℚ
  files : List (String × List ℤ)
  rows : List MetaRow
  status : List String

/-- Look a file up by name. -/
def lookupFs : List (String × List ℤ) → String → Option (List ℤ)
  | [], _ => none
  | (m, d) :: fs, n => if m = n then some d else lookupFs fs n

/-- Write a file: replace the contents under an existing name, or create
the file. -/
def writeFs : List (String × List ℤ) → String → List ℤ → List (String × List ℤ)
  | [], n, c => [(n, c)]
  | (m, d) :: fs, n, c => if m = n then (m, c) :: fs else (m, d) :: writeFs fs n c

/-- The status text posted by record_audio when no input device exists. -/
def deviceErrorMsg : String := "Audio error: No valid input device found"

/-- The status text posted by the except branch of save_key_audio. -/
def saveErrorMsg : String := "Save error"

/-- State at session start: zero buffer; record_audio posts the device
error once when no input device exists. -/
def initState (hasDevice : Bool) : SessionState :=
  { buffer := List.replicate buffer_samples 0
    files := []
    rows := []
    status := if hasDevice then [] else [deviceErrorMsg] }

/-- save_key_audio (lines 207-238): slice the trailing segment, encode it,
write the wav file, then append the metadata row; any failure is caught,
posts a status text, and drops the rest of the body. -/
def saveKeyAudio (st : SessionState) (label : String) (t : PyDateTime)
    (o : SaveOutcome) : SessionState :=
  let ts := strftimeTimestamp t
  let fname := label ++ "_" ++ ts ++ ".wav"
  let content := encodeSegment (sliceLast st.buffer segment_samples)
  match o with
  | .ok =>
      { st with files := writeFs st.files fname content
                rows := st.rows ++ [{ timestamp := ts, key := label, wavFile := fname }] }
  | .failOpen => { st with status := st.status ++ [saveErrorMsg] }
  | .failWrite w =>
      { st with files := writeFs st.files fname (content.take w)
                status := st.status ++ [saveErrorMsg] }
  | .failMeta =>
      { st with files := writeFs st.files fname content
                status := st.status ++ [saveErrorMsg] }

/-- One session step: an audio callback appends to the buffer (only when a
stream is running, i.e. a device exists), and a key press runs the
on_press filter and, when the label is accepted, save_key_audio. -/
def stepSession (printable : Char → Bool) (hasDevice : Bool)
    (st : SessionState) (e : SessionEvent) : SessionState :=
  match e with
  | .audio block =>
      if hasDevice then { st with buffer := callbackStep st.buffer block } else st
  | .keyPress k t o =>
      if acceptedLabel printable (decodeKey k) then saveKeyAudio st (decodeKey k) t o
      else st

/-- A whole session: fold the events over the start state. -/
def runSession (printable : Char → Bool) (hasDevice : Bool)
    (events : List SessionEvent) : SessionState :=
  events.foldl (stepSession printable hasDevice) (initState hasDevice)

/-! ## File-system and step lemmas -/

theorem lookupFs_writeFs_self (fs : List (String × List ℤ)) (n : String) (c : List ℤ) :
    lookupFs (writeFs fs n c) n = some c := by
  induction fs with
  | nil =>
      unfold writeFs lookupFs
      rw [if_pos rfl]
  | cons a fs ih =>
      obtain ⟨m, d⟩ := a
      unfold writeFs
      by_cases h : m = n
      · rw [if_pos h]
        unfold lookupFs
        rw [if_pos h]
      · rw [if_neg h]
        unfold lookupFs
        rw [if_neg h]
        exact ih

theorem lookupFs_writeFs_ne {fs : List (String × List ℤ)} {n q : String}
    {c : List ℤ} (h : q ≠ n) : lookupFs (writeFs fs n c) q = lookupFs fs q := by
  induction fs with
  | nil =>
      unfold writeFs lookupFs
      rw [if_neg (fun he => h he.symm)]
      rfl
  | cons a fs ih =>
      obtain ⟨m, d⟩ := a
      unfold writeFs
      by_cases hm : m = n
      · rw [if_pos hm]
        unfold lookupFs
        by_cases hq : m = q
        · exact absurd (hq.symm.trans hm) h
        · rw [if_neg hq, if_neg hq]
      · rw [if_neg hm]
        unfold lookupFs
        by_cases hq : m = q
        · rw [if_pos hq, if_pos hq]
        · rw [if_neg hq, if_neg hq]
          exact ih

theorem lookupFs_isSome_writeFs {fs : List (String × List ℤ)} {q : String}
    (n : String) (c : List ℤ) (h : (lookupFs fs q).isSome = true) :
    (lookupFs (writeFs fs n c) q).isSome = true := by
  by_cases hq : q = n
  · subst hq
    rw [lookupFs_writeFs_self]
    rfl
  · rw [lookupFs_writeFs_ne hq]
    exact h

theorem writeFs_mem {fs : List (String × List ℤ)} {n : String} {c : List ℤ}
    {p : String × List ℤ} (h : p ∈ writeFs fs n c) : p = (n, c) ∨ p ∈ fs := by
  induction fs with
  | nil =>
      unfold writeFs at h
      rcases List.mem_singleton.mp h with rfl
      exact Or.inl rfl
  | cons a fs ih =>
      obtain ⟨m, d⟩ := a
      unfold writeFs at h
      by_cases he : m = n
      · rw [if_pos he] at h
        rcases List.mem_cons.mp h with rfl | hm
        · exact Or.inl (by rw [he])
        · exact Or.inr (List.mem_cons_of_mem _ hm)
      · rw [if_neg he] at h
        rcases List.mem_cons.mp h with rfl | hm
        · exact Or.inr (List.mem_cons_self _ _)
        · rcases ih hm with h1 | h2
          · exact Or.inl h1
          · exact Or.inr (List.mem_cons_of_mem _ h2)

theorem saveKeyAudio_buffer (st : SessionState) (label : String) (t : PyDateTime)
    (o : SaveOutcome) : (saveKeyAudio st label t o).buffer = st.buffer := by
  cases o <;> rfl

theorem saveKeyAudio_ok_files (st : SessionState) (label : String) (t : PyDateTime) :
    (saveKeyAudio st label t SaveOutcome.ok).files
      = writeFs st.files (label ++ "_" ++ strftimeTimestamp t ++ ".wav")
          (encodeSegment (sliceLast st.buffer segment_samples)) := rfl

theorem saveKeyAudio_failMeta_files (st : SessionState) (label : String)
    (t : PyDateTime) :
    (saveKeyAudio st label t SaveOutcome.failMeta).files
      = writeFs st.files (label ++ "_" ++ strftimeTimestamp t ++ ".wav")
          (encodeSegment (sliceLast st.buffer segment_samples)) := rfl

theorem saveKeyAudio_ok_rows (st : SessionState) (label : String) (t : PyDateTime) :
    (saveKeyAudio st label t SaveOutcome.ok).rows
      = st.rows ++ [⟨strftimeTimestamp t, label,
          label ++ "_" ++ strftimeTimestamp t ++ ".wav"⟩] := rfl

theorem saveKeyAudio_fail_rows (st : SessionState) (label : String) (t : PyDateTime)
    (o : SaveOutcome) (h : o ≠ SaveOutcome.ok) :
    (saveKeyAudio st label t o).rows = st.rows := by
  cases o with
  | ok => exact absurd rfl h
  | failOpen => rfl
  | failWrite w => rfl
  | failMeta => rfl

theorem stepSession_keyPress_accepted (printable : Char → Bool) (hasDevice : Bool)
    (st : SessionState) (k : RawKey) (t : PyDateTime) (o : SaveOutcome)
    (hacc : acceptedLabel printable (decodeKey k) = true) :
    stepSession printable hasDevice st (SessionEvent.keyPress k t o)
      = saveKeyAudio st (decodeKey k) t o := by
  unfold stepSession
  dsimp only
  rw [if_pos hacc]

theorem stepSession_keyPress_rejected (printable : Char → Bool) (hasDevice : Bool)
    (st : SessionState) (k : RawKey) (t : PyDateTime) (o : SaveOutcome)
    (hacc : ¬ acceptedLabel printable (decodeKey k) = true) :
    stepSession printable hasDevice st (SessionEvent.keyPress k t o) = st := by
  unfold stepSession
  dsimp only
  rw [if_neg hacc]

theorem stepSession_audio_files (printable : Char → Bool) (hasDevice : Bool)
    (st : SessionState) (block : List ℚ) :
    (stepSession printable hasDevice st (SessionEvent.audio block)).files = st.files := by
  unfold stepSession
  cases hasDevice <;> rfl

theorem stepSession_audio_rows (printable : Char → Bool) (hasDevice : Bool)
    (st : SessionState) (block : List ℚ) :
    (stepSession printable hasDevice st (SessionEvent.audio block)).rows = st.rows := by
  unfold stepSession
  cases hasDevice <;> rfl

/-! ## C6: clip file names -/

/-- The filename scheme exactly as the claim states it: the label is a
single printable character or the literal text space, enter or
backspace. -/
def specFilenameForm (printable : Char → Bool) (fname : String) : Prop :=
  ∃ lbl ts : String,
    ((lbl.length = 1 ∧ ∀ c ∈ lbl.toList, printable c = true)
      ∨ lbl = "space" ∨ lbl = "enter" ∨ lbl = "backspace")
    ∧ fname = lbl ++ "_" ++ ts ++ ".wav"

/-- The space key as delivered by pynput: no char attribute, str form
Key.space. -/
def spaceKey : RawKey := { char := none, name := "Key.space" }

/-- The letter key a. -/
def aKey : RawKey := { char := some "a", name := "a" }

/-- A fixed wall-clock reading used by concrete scenarios. -/
def t0 : PyDateTime :=
  { year := 2026, month := 10, day := 12, hour := 0, minute := 0,
    second := 0, micro := 0 }

theorem str_data_append (a b : String) : (a ++ b).data = a.data ++ b.data := rfl

/-- C6 counterexample: pressing the space key while recording produces a
clip file named Key.space_timestamp.wav, which is not of the claimed
form (label as the literal text space). -/
theorem c6_filename_cex :
    ((runSession asciiPrintable true
        [SessionEvent.keyPress spaceKey t0 SaveOutcome.ok]).files.map Prod.fst)
      = ["Key.space_" ++ strftimeTimestamp t0 ++ ".wav"]
    ∧ ¬ specFilenameForm asciiPrintable
        ("Key.space_" ++ strftimeTimestamp t0 ++ ".wav") := by
  constructor
  · rfl
  · rintro ⟨lbl, ts, hl, he⟩
    have hd : ("Key.space_" ++ strftimeTimestamp t0 ++ ".wav").data
        = lbl.data ++ ('_' :: (ts.data ++ ['.', 'w', 'a', 'v'])) := by
      rw [he, str_data_append, str_data_append, str_data_append,
          show ("_" : String).data = ['_'] from rfl,
          show (".wav" : String).data = ['.', 'w', 'a', 'v'] from rfl,
          List.append_assoc, List.append_assoc]
      rfl
    rcases hl with ⟨hlen, _⟩ | rfl | rfl | rfl
    · have hdl : lbl.data.length = 1 := hlen
      obtain ⟨c, hc⟩ := List.length_eq_one.mp hdl
      have h1 : (("Key.space_" ++ strftimeTimestamp t0 ++ ".wav").data)[1]?
          = some 'e' := rfl
      rw [hd, hc] at h1
      simp only [List.cons_append, List.nil_append, List.getElem?_cons_succ,
        List.getElem?_cons_zero, Option.some.injEq] at h1
      exact absurd h1 (by decide)
    · have h0 : (("Key.space_" ++ strftimeTimestamp t0 ++ ".wav").data)[0]?
          = some 'K' := rfl
      rw [hd, show ("space" : String).data = ['s', 'p', 'a', 'c', 'e'] from rfl] at h0
      simp only [List.cons_append, List.getElem?_cons_zero, Option.some.injEq] at h0
      exact absurd h0 (by decide)
    · have h0 : (("Key.space_" ++ strftimeTimestamp t0 ++ ".wav").data)[0]?
          = some 'K' := rfl
      rw [hd, show ("enter" : String).data = ['e', 'n', 't', 'e', 'r'] from rfl] at h0
      simp only [List.cons_append, List.getElem?_cons_zero, Option.some.injEq] at h0
      exact absurd h0 (by decide)
    · have h0 : (("Key.space_" ++ strftimeTimestamp t0 ++ ".wav").data)[0]?
          = some 'K' := rfl
      rw [hd, show ("backspace" : String).data
          = ['b', 'a', 'c', 'k', 's', 'p', 'a', 'c', 'e'] from rfl] at h0
      simp only [List.cons_append, List.getElem?_cons_zero, Option.some.injEq] at h0
      exact absurd h0 (by decide)

theorem files_name_shape (printable : Char → Bool) (hasDevice : Bool)
    (P : String → Prop)
    (hP : ∀ lbl t, acceptedLabel printable lbl = true →
        P (lbl ++ "_" ++ strftimeTimestamp t ++ ".wav")) :
    ∀ (events : List SessionEvent) (st : SessionState),
      (∀ f ∈ st.files, P f.1) →
      ∀ f ∈ (List.foldl (stepSession printable hasDevice) st events).files, P f.1 := by
  intro events
  induction events with
  | nil =>
      intro st h
      simpa using h
  | cons e evs ih =>
      intro st h
      rw [List.foldl_cons]
      apply ih
      intro f hf
      cases e with
      | audio block =>
          rw [stepSession_audio_files] at hf
          exact h f hf
      | keyPress k t o =>
          by_cases hacc : acceptedLabel printable (decodeKey k) = true
          · rw [stepSession_keyPress_accepted _ _ _ _ _ _ hacc] at hf
            cases o with
            | ok =>
                rw [saveKeyAudio_ok_files] at hf
                rcases writeFs_mem hf with rfl | hmem
                · exact hP _ t hacc
                · exact h _ hmem
            | failOpen =>
                exact h f hf
            | failWrite w =>
                have hw : (saveKeyAudio st (decodeKey k) t (SaveOutcome.failWrite w)).files
                    = writeFs st.files
                        (decodeKey k ++ "_" ++ strftimeTimestamp t ++ ".wav")
                        ((encodeSegment (sliceLast st.buffer segment_samples)).take w) := rfl
                rw [hw] at hf
                rcases writeFs_mem hf with rfl | hmem
                · exact hP _ t hacc
                · exact h _ hmem
            | failMeta =>
                rw [saveKeyAudio_failMeta_files] at hf
                rcases writeFs_mem hf with rfl | hmem
                · exact hP _ t hacc
                · exact h _ hmem
          · rw [stepSession_keyPress_rejected _ _ _ _ _ _ hacc] at hf
            exact h f hf

/-- C6 amended: every clip file written by a session is named
label_timestamp.wav where the label is the accepted decoded label (for
the named controls that is Key.space, Key.enter or Key.backspace rather
than the literal text space, enter, backspace), and the timestamp string
keeps full microsecond resolution. -/
theorem c6_filename_shape (printable : Char → Bool) (hasDevice : Bool)
    (events : List SessionEvent) :
    (∀ f ∈ (runSession printable hasDevice events).files,
      ∃ lbl t, acceptedLabel printable lbl = true
        ∧ f.1 = lbl ++ "_" ++ strftimeTimestamp t ++ ".wav")
    ∧ ∀ t : PyDateTime, t.micro < 1000000 →
        tsMicro (strftimeTimestamp t) = t.micro := by
  constructor
  · unfold runSession
    apply files_name_shape printable hasDevice
      (fun n => ∃ lbl t, acceptedLabel printable lbl = true
        ∧ n = lbl ++ "_" ++ strftimeTimestamp t ++ ".wav")
      (fun lbl t h => ⟨lbl, t, h, rfl⟩)
    intro f hf
    simp [initState] at hf
  · exact fun t h => tsMicro_strftime t h

/-- C6 witness: the microsecond field of the fixed reading t0 is read
back from its timestamp string. -/
theorem c6_filename_shape_w :
    t0.micro < 1000000 ∧ tsMicro (strftimeTimestamp t0) = t0.micro :=
  ⟨by decide, (c6_filename_shape asciiPrintable true []).2 t0 (by decide)⟩

/-! ## C7: behavior without an input device -/

theorem mem_sliceLast_replicate_zero {N n : Nat} {x : ℚ}
    (h : x ∈ sliceLast (List.replicate N (0:ℚ)) n) : x = 0 := by
  unfold sliceLast at h
  split at h
  · exact List.eq_of_mem_replicate h
  · exact List.eq_of_mem_replicate (List.mem_of_mem_drop h)

theorem encodeSegment_replicate_zero (m : Nat) :
    encodeSegment (List.replicate m (0:ℚ)) = List.replicate m (0:ℤ) := by
  rw [encodeSegment_of_all_zero (fun x hx => List.eq_of_mem_replicate hx),
    List.map_replicate]

theorem no_device_step (printable : Char → Bool) (st : SessionState) (e : SessionEvent)
    (h1 : st.buffer = List.replicate buffer_samples (0:ℚ))
    (h2 : ∀ f ∈ st.files, ∀ y ∈ f.2, y = (0:ℤ))
    (h3 : deviceErrorMsg ∈ st.status) :
    (stepSession printable false st e).buffer = List.replicate buffer_samples (0:ℚ)
    ∧ (∀ f ∈ (stepSession printable false st e).files, ∀ y ∈ f.2, y = (0:ℤ))
    ∧ deviceErrorMsg ∈ (stepSession printable false st e).status := by
  cases e with
  | audio block => exact ⟨h1, h2, h3⟩
  | keyPress k t o =>
      by_cases hacc : acceptedLabel printable (decodeKey k) = true
      · rw [stepSession_keyPress_accepted _ _ _ _ _ _ hacc]
        have hz : ∀ y ∈ encodeSegment (sliceLast st.buffer segment_samples),
            y = (0:ℤ) := by
          intro y hy
          rw [h1, encodeSegment_of_all_zero
            (fun x hx => mem_sliceLast_replicate_zero hx)] at hy
          obtain ⟨x, _, rfl⟩ := List.mem_map.mp hy
          rfl
        cases o with
        | ok =>
            refine ⟨by rw [saveKeyAudio_buffer]; exact h1, ?_, h3⟩
            intro f hf
            rw [saveKeyAudio_ok_files] at hf
            rcases writeFs_mem hf with rfl | hmem
            · intro y hy
              dsimp only at hy
              exact hz y hy
            · exact h2 _ hmem
        | failOpen =>
            exact ⟨h1, h2, List.mem_append_left _ h3⟩
        | failWrite w =>
            refine ⟨by rw [saveKeyAudio_buffer]; exact h1, ?_,
              List.mem_append_left _ h3⟩
            intro f hf
            have hw : (saveKeyAudio st (decodeKey k) t (SaveOutcome.failWrite w)).files
                = writeFs st.files
                    (decodeKey k ++ "_" ++ strftimeTimestamp t ++ ".wav")
                    ((encodeSegment (sliceLast st.buffer segment_samples)).take w) := rfl
            rw [hw] at hf
            rcases writeFs_mem hf with rfl | hmem
            · exact fun y hy => hz y (List.mem_of_mem_take hy)
            · exact h2 _ hmem
        | failMeta =>
            refine ⟨by rw [saveKeyAudio_buffer]; exact h1, ?_,
              List.mem_append_left _ h3⟩
            intro f hf
            rw [saveKeyAudio_failMeta_files] at hf
            rcases writeFs_mem hf with rfl | hmem
            · intro y hy
              dsimp only at hy
              exact hz y hy
            · exact h2 _ hmem
      · rw [stepSession_keyPress_rejected _ _ _ _ _ _ hacc]
        exact ⟨h1, h2, h3⟩

theorem no_device_inv (printable : Char → Bool) :
    ∀ (events : List SessionEvent) (st : SessionState),
      st.buffer = List.replicate buffer_samples (0:ℚ) →
      (∀ f ∈ st.files, ∀ y ∈ f.2, y = (0:ℤ)) →
      deviceErrorMsg ∈ st.status →
      (∀ f ∈ (List.foldl (stepSession printable false) st events).files,
          ∀ y ∈ f.2, y = (0:ℤ))
      ∧ deviceErrorMsg ∈ (List.foldl (stepSession printable false) st events).status := by
  intro events
  induction events with
  | nil =>
      intro st _ h2 h3
      exact ⟨h2, h3⟩
  | cons e evs ih =>
      intro st h1 h2 h3
      rw [List.foldl_cons]
      obtain ⟨g1, g2, g3⟩ := no_device_step printable st e h1 h2 h3
      exact ih _ g1 g2 g3

/-- C7 amended: with no input device the session posts the device error to
the status label, and key presses still write clip files, whose samples
are all zero (the rolling buffer is never written). -/
theorem c7_no_device (printable : Char → Bool) (events : List SessionEvent) :
    deviceErrorMsg ∈ (runSession printable false events).status
    ∧ ∀ f ∈ (runSession printable false events).files, ∀ y ∈ f.2, y = (0:ℤ) := by
  have h := no_device_inv printable events (initState false) rfl
    (by intro f hf; simp [initState] at hf)
    (by simp [initState])
  exact ⟨h.2, h.1⟩

/-- C7 counterexample: with no input device, one accepted key press still
produces a clip file (while the device error is on the status label), so
clip files are produced. -/
theorem c7_no_device_cex :
    (runSession asciiPrintable false
        [SessionEvent.keyPress aKey t0 SaveOutcome.ok]).files.length = 1
    ∧ deviceErrorMsg ∈ (runSession asciiPrintable false
        [SessionEvent.keyPress aKey t0 SaveOutcome.ok]).status := by
  refine ⟨rfl, ?_⟩
  have h : (runSession asciiPrintable false
      [SessionEvent.keyPress aKey t0 SaveOutcome.ok]).status = [deviceErrorMsg] := rfl
  rw [h]
  exact List.mem_singleton_self _

/-- C7 witness for the amended theorem: the device error is on the status
surface in the one-key scenario. -/
theorem c7_no_device_w :
    deviceErrorMsg ∈ (runSession asciiPrintable false
      [SessionEvent.keyPress aKey t0 SaveOutcome.ok]).status :=
  (c7_no_device asciiPrintable [SessionEvent.keyPress aKey t0 SaveOutcome.ok]).1

/-! ## C8: failure isolation of save_key_audio -/

/-- C8 amended: a key press whose save fails (with a clip file name that
does not collide with an existing clip file) appends no metadata row,
leaves every previously written clip file unchanged, posts the save error
to the status label, and the session keeps processing later events. -/
theorem c8_failure_isolated (printable : Char → Bool) (hasDevice : Bool)
    (st : SessionState) (key : RawKey) (t : PyDateTime) (o : SaveOutcome)
    (ho : o ≠ SaveOutcome.ok)
    (hfresh : lookupFs st.files
      (decodeKey key ++ "_" ++ strftimeTimestamp t ++ ".wav") = none) :
    (stepSession printable hasDevice st (SessionEvent.keyPress key t o)).rows = st.rows
    ∧ (∀ n c, lookupFs st.files n = some c →
        lookupFs (stepSession printable hasDevice st
          (SessionEvent.keyPress key t o)).files n = some c)
    ∧ (∀ rest : List SessionEvent,
        List.foldl (stepSession printable hasDevice) st
            (SessionEvent.keyPress key t o :: rest)
          = List.foldl (stepSession printable hasDevice)
              (stepSession printable hasDevice st (SessionEvent.keyPress key t o)) rest)
    ∧ (acceptedLabel printable (decodeKey key) = true →
        (stepSession printable hasDevice st
          (SessionEvent.keyPress key t o)).status = st.status ++ [saveErrorMsg]) := by
  have hpres : ∀ n c, lookupFs st.files n = some c →
      lookupFs (writeFs st.files
        (decodeKey key ++ "_" ++ strftimeTimestamp t ++ ".wav")
        (encodeSegment (sliceLast st.buffer segment_samples))) n = some c := by
    intro n c hc
    have hne : n ≠ decodeKey key ++ "_" ++ strftimeTimestamp t ++ ".wav" := by
      intro he
      rw [he, hfresh] at hc
      cases hc
    rw [lookupFs_writeFs_ne hne]
    exact hc
  have hpresw : ∀ w, ∀ n c, lookupFs st.files n = some c →
      lookupFs (writeFs st.files
        (decodeKey key ++ "_" ++ strftimeTimestamp t ++ ".wav")
        ((encodeSegment (sliceLast st.buffer segment_samples)).take w)) n = some c := by
    intro w n c hc
    have hne : n ≠ decodeKey key ++ "_" ++ strftimeTimestamp t ++ ".wav" := by
      intro he
      rw [he, hfresh] at hc
      cases hc
    rw [lookupFs_writeFs_ne hne]
    exact hc
  by_cases hacc : acceptedLabel printable (decodeKey key) = true
  · rw [stepSession_keyPress_accepted _ _ _ _ _ _ hacc]
    cases o with
    | ok => exact absurd rfl ho
    | failOpen =>
        exact ⟨rfl, fun n c hc => hc, fun rest => by
          rw [List.foldl_cons, stepSession_keyPress_accepted _ _ _ _ _ _ hacc],
          fun _ => rfl⟩
    | failWrite w =>
        exact ⟨rfl, hpresw w, fun rest => by
          rw [List.foldl_cons, stepSession_keyPress_accepted _ _ _ _ _ _ hacc],
          fun _ => rfl⟩
    | failMeta =>
        refine ⟨rfl, ?_, fun rest => by
          rw [List.foldl_cons, stepSession_keyPress_accepted _ _ _ _ _ _ hacc],
          fun _ => rfl⟩
        rw [saveKeyAudio_failMeta_files]
        exact hpres
  · rw [stepSession_keyPress_rejected _ _ _ _ _ _ hacc]
    exact ⟨rfl, fun n c hc => hc,
      fun rest => by
        rw [List.foldl_cons, stepSession_keyPress_rejected _ _ _ _ _ _ hacc],
      fun h => absurd h hacc⟩

/-- C8 witness: a fresh-named failing save on the start state leaves the
metadata rows unchanged. -/
theorem c8_failure_isolated_w :
    SaveOutcome.failMeta ≠ SaveOutcome.ok
    ∧ lookupFs (initState true).files
        (decodeKey aKey ++ "_" ++ strftimeTimestamp t0 ++ ".wav") = none
    ∧ (stepSession asciiPrintable true (initState true)
        (SessionEvent.keyPress aKey t0 SaveOutcome.failMeta)).rows
      = (initState true).rows :=
  ⟨by decide, rfl,
   (c8_failure_isolated asciiPrintable true (initState true) aKey t0
      SaveOutcome.failMeta (by decide) rfl).1⟩

theorem foldr_max_replicate_zero {z : ℚ} (h : 0 ≤ z) (m : Nat) :
    (List.replicate m (0:ℚ)).foldr max z = z := by
  induction m with
  | zero => rfl
  | succ k ih =>
      rw [List.replicate_succ, List.foldr_cons, ih]
      exact max_eq_right h

theorem npAbsMax_zeros_concat_one (m : Nat) :
    npAbsMax (List.replicate m (0:ℚ) ++ [1]) = 1 := by
  unfold npAbsMax
  rw [List.map_append, List.foldr_append, List.map_replicate, abs_zero,
      List.map_cons, List.map_nil, List.foldr_cons, List.foldr_nil, abs_one,
      max_eq_left zero_le_one, foldr_max_replicate_zero zero_le_one]

theorem encode_zeros_one (m : Nat) :
    encodeSegment (List.replicate m (0:ℚ) ++ [1])
      = List.replicate m (0:ℤ) ++ [32767] := by
  have hmax := npAbsMax_zeros_concat_one m
  unfold encodeSegment
  rw [hmax, if_pos zero_lt_one, List.map_append, List.map_replicate]
  have hz : npInt16 ((0:ℚ) / 1 * 32767) = 0 := by
    rw [show ((0:ℚ) / 1 * 32767) = 0 by norm_num]
    exact npInt16_zero
  have ho : npInt16 ((1:ℚ) / 1 * 32767) = 32767 := by
    rw [show ((1:ℚ) / 1 * 32767) = ((32767:ℤ) : ℚ) by norm_num]
    unfold npInt16
    rw [truncQ_intCast]
    exact int16Wrap_eq_self (by omega) (by omega)
  rw [hz, List.map_cons, List.map_nil, ho]

theorem slice_init :
    sliceLast (List.replicate buffer_samples (0:ℚ)) segment_samples
      = List.replicate 8820 (0:ℚ) := by
  have h : sliceLast (List.replicate 88200 (0:ℚ)) 8820
      = List.replicate 8820 (0:ℚ) := by
    unfold sliceLast
    rw [if_neg (by norm_num), List.length_replicate, List.drop_replicate]
  exact h

theorem buffer_after_one :
    callbackStep (List.replicate buffer_samples (0:ℚ)) [1]
      = List.replicate 88199 (0:ℚ) ++ [1] := by
  have h : callbackStep (List.replicate 88200 (0:ℚ)) [1]
      = List.replicate 88199 (0:ℚ) ++ [1] := by
    rw [callbackStep_eq_drop _ _ (by rw [List.length_replicate]; norm_num)]
    rw [show [(1:ℚ)].length = 1 from rfl, List.drop_replicate]
  exact h

theorem slice_after_one :
    sliceLast (List.replicate 88199 (0:ℚ) ++ [1]) segment_samples
      = List.replicate 8819 (0:ℚ) ++ [1] := by
  have h : sliceLast (List.replicate 88199 (0:ℚ) ++ [1]) 8820
      = List.replicate 8819 (0:ℚ) ++ [1] := by
    unfold sliceLast
    rw [if_neg (by norm_num)]
    have hlen : (List.replicate 88199 (0:ℚ) ++ [1]).length = 88200 := by
      rw [List.length_append, List.length_replicate]
      rfl
    rw [hlen,
        List.drop_append_of_le_length (by rw [List.length_replicate]; norm_num),
        List.drop_replicate]
  exact h

/-- C8 counterexample: two accepted key presses with the same label and
wall-clock reading collide on the same clip file name; when the second
save writes the wav file and then fails on the metadata append, the clip
file previously written by the first (successful) save is replaced by
different contents. -/
theorem c8_failure_cex :
    lookupFs (runSession asciiPrintable true
        [SessionEvent.keyPress aKey t0 SaveOutcome.ok]).files
        ("a" ++ "_" ++ strftimeTimestamp t0 ++ ".wav")
      = some (List.replicate 8820 (0:ℤ))
    ∧ lookupFs (runSession asciiPrintable true
        [SessionEvent.keyPress aKey t0 SaveOutcome.ok,
         SessionEvent.audio [1],
         SessionEvent.keyPress aKey t0 SaveOutcome.failMeta]).files
        ("a" ++ "_" ++ strftimeTimestamp t0 ++ ".wav")
      = some (List.replicate 8819 (0:ℤ) ++ [32767])
    ∧ List.replicate 8820 (0:ℤ) ≠ List.replicate 8819 (0:ℤ) ++ [32767] := by
  have hacc : acceptedLabel asciiPrintable (decodeKey aKey) = true := by decide
  have h1files : (saveKeyAudio (initState true) (decodeKey aKey) t0 SaveOutcome.ok).files
      = writeFs (initState true).files ("a" ++ "_" ++ strftimeTimestamp t0 ++ ".wav")
          (List.replicate 8820 (0:ℤ)) := by
    rw [saveKeyAudio_ok_files,
        show (initState true).buffer = List.replicate buffer_samples (0:ℚ) from rfl,
        slice_init, encodeSegment_replicate_zero,
        show decodeKey aKey = "a" from rfl]
  refine ⟨?_, ?_, ?_⟩
  · rw [show runSession asciiPrintable true
          [SessionEvent.keyPress aKey t0 SaveOutcome.ok]
        = saveKeyAudio (initState true) (decodeKey aKey) t0 SaveOutcome.ok from by
      unfold runSession
      rw [List.foldl_cons, List.foldl_nil,
          stepSession_keyPress_accepted _ _ _ _ _ _ hacc]]
    rw [h1files]
    exact lookupFs_writeFs_self _ _ _
  · rw [show runSession asciiPrintable true
          [SessionEvent.keyPress aKey t0 SaveOutcome.ok,
           SessionEvent.audio [1],
           SessionEvent.keyPress aKey t0 SaveOutcome.failMeta]
        = saveKeyAudio
            (stepSession asciiPrintable true
              (saveKeyAudio (initState true) (decodeKey aKey) t0 SaveOutcome.ok)
              (SessionEvent.audio [1]))
            (decodeKey aKey) t0 SaveOutcome.failMeta from by
      unfold runSession
      rw [List.foldl_cons, List.foldl_cons, List.foldl_cons, List.foldl_nil,
          stepSession_keyPress_accepted _ _ _ _ _ _ hacc,
          stepSession_keyPress_accepted _ _ _ _ _ _ hacc]]
    rw [saveKeyAudio_failMeta_files]
    have hbuf2 : (stepSession asciiPrintable true
        (saveKeyAudio (initState true) (decodeKey aKey) t0 SaveOutcome.ok)
        (SessionEvent.audio [1])).buffer
        = List.replicate 88199 (0:ℚ) ++ [1] := by
      rw [show (stepSession asciiPrintable true
          (saveKeyAudio (initState true) (decodeKey aKey) t0 SaveOutcome.ok)
          (SessionEvent.audio [1])).buffer
        = callbackStep (saveKeyAudio (initState true) (decodeKey aKey) t0
            SaveOutcome.ok).buffer [1] from rfl]
      rw [saveKeyAudio_buffer,
          show (initState true).buffer = List.replicate buffer_samples (0:ℚ) from rfl,
          buffer_after_one]
    have hfiles2 : (stepSession asciiPrintable true
        (saveKeyAudio (initState true) (decodeKey aKey) t0 SaveOutcome.ok)
        (SessionEvent.audio [1])).files
        = (saveKeyAudio (initState true) (decodeKey aKey) t0 SaveOutcome.ok).files := by
      rw [stepSession_audio_files]
    rw [hbuf2, hfiles2, slice_after_one, encode_zeros_one,
        show decodeKey aKey = "a" from rfl]
    exact lookupFs_writeFs_self _ _ _
  · intro h
    have hlast := congrArg List.getLast? h
    rw [show List.replicate 8820 (0:ℤ) = List.replicate 8819 (0:ℤ) ++ [0] from by
          rw [show (8820 : Nat) = 8819 + 1 from rfl, List.replicate_succ']] at hlast
    rw [List.getLast?_concat, List.getLast?_concat] at hlast
    exact absurd (Option.some.inj hlast) (by decide)

/-! ## C9: metadata and clip-directory invariant -/

/-- The clip file name produced by an event, when the event is an accepted
key press whose save succeeds. -/
def eventFname (printable : Char → Bool) : SessionEvent → Option String
  | SessionEvent.keyPress k t SaveOutcome.ok =>
      if acceptedLabel printable (decodeKey k) then
        some (decodeKey k ++ "_" ++ strftimeTimestamp t ++ ".wav")
      else none
  | _ => none

/-- The clip file names of the successful saves of a session, in order. -/
def successFilenames (printable : Char → Bool) (events : List SessionEvent) :
    List String :=
  events.filterMap (eventFname printable)

theorem eventFname_keyPress_ok (printable : Char → Bool) (k : RawKey)
    (t : PyDateTime) :
    eventFname printable (SessionEvent.keyPress k t SaveOutcome.ok)
      = if acceptedLabel printable (decodeKey k) then
          some (decodeKey k ++ "_" ++ strftimeTimestamp t ++ ".wav")
        else none := rfl

/-- The joint invariant of the metadata log and the clip directory as the
claim states it: every row names an existing clip file, and the rows name
pairwise distinct clip files. -/
def sessionInv (st : SessionState) : Prop :=
  (∀ r ∈ st.rows, (lookupFs st.files r.wavFile).isSome = true)
  ∧ (st.rows.map MetaRow.wavFile).Nodup

theorem session_rows_files_inv (printable : Char → Bool) (hasDevice : Bool) :
    ∀ (events : List SessionEvent) (st : SessionState),
      (∀ r ∈ st.rows, (lookupFs st.files r.wavFile).isSome = true) →
      (st.rows.map MetaRow.wavFile ++ successFilenames printable events).Nodup →
      (∀ r ∈ (List.foldl (stepSession printable hasDevice) st events).rows,
          (lookupFs (List.foldl (stepSession printable hasDevice) st events).files
            r.wavFile).isSome = true)
      ∧ ((List.foldl (stepSession printable hasDevice) st events).rows.map
            MetaRow.wavFile).Nodup := by
  intro events
  induction events with
  | nil =>
      intro st h1 h2
      refine ⟨h1, ?_⟩
      simpa [successFilenames] using h2
  | cons e evs ih =>
      intro st h1 h2
      rw [List.foldl_cons]
      cases e with
      | audio block =>
          apply ih
          · intro r hr
            rw [stepSession_audio_rows] at hr
            rw [stepSession_audio_files]
            exact h1 r hr
          · rw [stepSession_audio_rows]
            have he : successFilenames printable (SessionEvent.audio block :: evs)
                = successFilenames printable evs := by
              unfold successFilenames
              rw [List.filterMap_cons]
              rfl
            rw [← he]
            exact h2
      | keyPress k t o =>
          by_cases hacc : acceptedLabel printable (decodeKey k) = true
          · rw [stepSession_keyPress_accepted _ _ _ _ _ _ hacc]
            cases o with
            | ok =>
                have hfn : successFilenames printable
                    (SessionEvent.keyPress k t SaveOutcome.ok :: evs)
                    = (decodeKey k ++ "_" ++ strftimeTimestamp t ++ ".wav")
                        :: successFilenames printable evs := by
                  unfold successFilenames
                  rw [List.filterMap_cons, eventFname_keyPress_ok, if_pos hacc]
                rw [hfn] at h2
                apply ih
                · intro r hr
                  rw [saveKeyAudio_ok_rows] at hr
                  rcases List.mem_append.mp hr with hold | hnew
                  · rw [saveKeyAudio_ok_files]
                    exact lookupFs_isSome_writeFs _ _ (h1 r hold)
                  · have hreq : r = ⟨strftimeTimestamp t, decodeKey k,
                        decodeKey k ++ "_" ++ strftimeTimestamp t ++ ".wav"⟩ :=
                      List.mem_singleton.mp hnew
                    rw [saveKeyAudio_ok_files, hreq, lookupFs_writeFs_self]
                    rfl
                · rw [saveKeyAudio_ok_rows, List.map_append]
                  have harr : st.rows.map MetaRow.wavFile
                        ++ ([⟨strftimeTimestamp t, decodeKey k,
                            decodeKey k ++ "_" ++ strftimeTimestamp t ++ ".wav"⟩]
                          : List MetaRow).map MetaRow.wavFile
                        ++ successFilenames printable evs
                      = st.rows.map MetaRow.wavFile
                        ++ ((decodeKey k ++ "_" ++ strftimeTimestamp t ++ ".wav")
                          :: successFilenames printable evs) := by
                    rw [List.append_assoc]
                    rfl
                  rw [harr]
                  exact h2
            | failOpen =>
                have hfn : successFilenames printable
                    (SessionEvent.keyPress k t SaveOutcome.failOpen :: evs)
                    = successFilenames printable evs := by
                  unfold successFilenames eventFname
                  rw [List.filterMap_cons]
                rw [hfn] at h2
                exact ih _ h1 h2
            | failWrite w =>
                have hfn : successFilenames printable
                    (SessionEvent.keyPress k t (SaveOutcome.failWrite w) :: evs)
                    = successFilenames printable evs := by
                  unfold successFilenames eventFname
                  rw [List.filterMap_cons]
                rw [hfn] at h2
                apply ih
                · intro r hr
                  rw [saveKeyAudio_fail_rows _ _ _ _ (by intro hx; cases hx)] at hr
                  have hw : (saveKeyAudio st (decodeKey k) t
                      (SaveOutcome.failWrite w)).files
                      = writeFs st.files
                          (decodeKey k ++ "_" ++ strftimeTimestamp t ++ ".wav")
                          ((encodeSegment (sliceLast st.buffer segment_samples)).take w)
                      := rfl
                  rw [hw]
                  exact lookupFs_isSome_writeFs _ _ (h1 r hr)
                · rw [saveKeyAudio_fail_rows _ _ _ _ (by intro hx; cases hx)]
                  exact h2
            | failMeta =>
                have hfn : successFilenames printable
                    (SessionEvent.keyPress k t SaveOutcome.failMeta :: evs)
                    = successFilenames printable evs := by
                  unfold successFilenames eventFname
                  rw [List.filterMap_cons]
                rw [hfn] at h2
                apply ih
                · intro r hr
                  rw [saveKeyAudio_fail_rows _ _ _ _ (by intro hx; cases hx)] at hr
                  rw [saveKeyAudio_failMeta_files]
                  exact lookupFs_isSome_writeFs _ _ (h1 r hr)
                · rw [saveKeyAudio_fail_rows _ _ _ _ (by intro hx; cases hx)]
                  exact h2
          · rw [stepSession_keyPress_rejected _ _ _ _ _ _ hacc]
            have hfn : successFilenames printable
                (SessionEvent.keyPress k t o :: evs)
                = successFilenames printable evs := by
              unfold successFilenames
              rw [List.filterMap_cons]
              cases o with
              | ok =>
                  rw [eventFname_keyPress_ok, if_neg hacc]
              | failOpen => rfl
              | failWrite w => rfl
              | failMeta => rfl
            rw [hfn] at h2
            exact ih _ h1 h2

/-- C9 amended: provided the clip file names of the session's successful
saves are pairwise distinct (no label/timestamp collision), then at every
point every metadata row names exactly one existing clip file and the
rows name pairwise distinct clip files. -/
theorem c9_metadata_invariant (printable : Char → Bool) (hasDevice : Bool)
    (events : List SessionEvent)
    (hnd : (successFilenames printable events).Nodup) :
    sessionInv (runSession printable hasDevice events) := by
  unfold runSession sessionInv
  apply session_rows_files_inv printable hasDevice events (initState hasDevice)
  · intro r hr
    simp [initState] at hr
  · simpa [initState] using hnd

/-- C9 counterexample: two successful saves with the same label and
wall-clock reading give two metadata rows naming the same clip file, so
the rows' file names are not pairwise distinct. -/
theorem c9_metadata_cex :
    ¬ sessionInv (runSession asciiPrintable true
      [SessionEvent.keyPress aKey t0 SaveOutcome.ok,
       SessionEvent.keyPress aKey t0 SaveOutcome.ok]) := by
  intro h
  have h2 := h.2
  have hrows : (runSession asciiPrintable true
      [SessionEvent.keyPress aKey t0 SaveOutcome.ok,
       SessionEvent.keyPress aKey t0 SaveOutcome.ok]).rows.map MetaRow.wavFile
      = ["a" ++ "_" ++ strftimeTimestamp t0 ++ ".wav",
         "a" ++ "_" ++ strftimeTimestamp t0 ++ ".wav"] := rfl
  rw [hrows] at h2
  simp at h2

/-- C9 witness: one successful save satisfies the distinctness hypothesis
and the invariant. -/
theorem c9_metadata_invariant_w :
    (successFilenames asciiPrintable
        [SessionEvent.keyPress aKey t0 SaveOutcome.ok]).Nodup
    ∧ sessionInv (runSession asciiPrintable true
        [SessionEvent.keyPress aKey t0 SaveOutcome.ok]) :=
  ⟨by decide, c9_metadata_invariant asciiPrintable true _ (by decide)⟩

end KeySound
